import Mathlib

/-!
Shallow embedding of the VeloDetect indicator engine
(`src/velodetect/indicator/technical_indicators.py`), the OHLCV data model
(`src/velodetect/model/ohlcv.py`) and the series assembler
(`src/velodetect/data/fetch_ohlcv_dataframe.py`).

Numeric values are modelled by `F`, an IEEE-style float domain over exact
rationals: `nan`, `pinf` (+infinity), `ninf` (-infinity) and finite values
`fin q`.  Arithmetic and comparisons follow IEEE / pandas semantics: any
operation on `nan` yields `nan`, every comparison involving `nan` is `false`,
division of a positive finite value by zero yields `pinf`, `0/0` is `nan`.
Signed zero is not modelled (no claim depends on it).
-/

inductive F where
  | nan : F
  | pinf : F
  | ninf : F
  | fin : ℚ → F
deriving DecidableEq, Repr

namespace F

def add : F → F → F
  | nan, _ => nan
  | _, nan => nan
  | pinf, ninf => nan
  | ninf, pinf => nan
  | pinf, _ => pinf
  | _, pinf => pinf
  | ninf, _ => ninf
  | _, ninf => ninf
  | fin a, fin b => fin (a + b)

def sub : F → F → F
  | nan, _ => nan
  | _, nan => nan
  | pinf, pinf => nan
  | ninf, ninf => nan
  | pinf, _ => pinf
  | ninf, _ => ninf
  | _, pinf => ninf
  | _, ninf => pinf
  | fin a, fin b => fin (a - b)

def neg : F → F
  | nan => nan
  | pinf => ninf
  | ninf => pinf
  | fin a => fin (-a)

def mul : F → F → F
  | nan, _ => nan
  | _, nan => nan
  | pinf, pinf => pinf
  | pinf, ninf => ninf
  | ninf, pinf => ninf
  | ninf, ninf => pinf
  | pinf, fin b => if 0 < b then pinf else if b < 0 then ninf else nan
  | fin a, pinf => if 0 < a then pinf else if a < 0 then ninf else nan
  | ninf, fin b => if 0 < b then ninf else if b < 0 then pinf else nan
  | fin a, ninf => if 0 < a then ninf else if a < 0 then pinf else nan
  | fin a, fin b => fin (a * b)

def div : F → F → F
  | nan, _ => nan
  | _, nan => nan
  | pinf, pinf => nan
  | pinf, ninf => nan
  | ninf, pinf => nan
  | ninf, ninf => nan
  | pinf, fin b => if 0 ≤ b then pinf else ninf
  | ninf, fin b => if 0 ≤ b then ninf else pinf
  | fin _, pinf => fin 0
  | fin _, ninf => fin 0
  | fin a, fin b => if b ≠ 0 then fin (a / b) else if 0 < a then pinf else if a < 0 then ninf else nan

def habs : F → F
  | nan => nan
  | pinf => pinf
  | ninf => pinf
  | fin a => fin |a|

/-- Strict less-than with IEEE semantics: any comparison with `nan` is false. -/
def ltb : F → F → Bool
  | nan, _ => false
  | _, nan => false
  | pinf, _ => false
  | ninf, ninf => false
  | ninf, _ => true
  | fin _, pinf => true
  | fin _, ninf => false
  | fin a, fin b => a < b

/-- `max` with pandas skipna semantics (`DataFrame.max(axis=1)`): `nan`
operands are skipped, not propagated. -/
def nmax : F → F → F
  | nan, b => b
  | a, nan => a
  | pinf, _ => pinf
  | _, pinf => pinf
  | ninf, b => b
  | a, ninf => a
  | fin a, fin b => fin (max a b)

end F

@[simp] lemma F.add_fin_fin (a b : ℚ) : F.add (F.fin a) (F.fin b) = F.fin (a + b) := rfl

@[simp] lemma F.sub_fin_fin (a b : ℚ) : F.sub (F.fin a) (F.fin b) = F.fin (a - b) := rfl

@[simp] lemma F.mul_fin_fin (a b : ℚ) : F.mul (F.fin a) (F.fin b) = F.fin (a * b) := rfl

@[simp] lemma F.add_nan_left (x : F) : F.add F.nan x = F.nan := by cases x <;> rfl

@[simp] lemma F.add_nan_right (x : F) : F.add x F.nan = F.nan := by cases x <;> rfl

@[simp] lemma F.sub_nan_left (x : F) : F.sub F.nan x = F.nan := by cases x <;> rfl

@[simp] lemma F.sub_nan_right (x : F) : F.sub x F.nan = F.nan := by cases x <;> rfl

@[simp] lemma F.mul_nan_left (x : F) : F.mul F.nan x = F.nan := by cases x <;> rfl

@[simp] lemma F.mul_nan_right (x : F) : F.mul x F.nan = F.nan := by cases x <;> rfl

@[simp] lemma F.div_nan_left (x : F) : F.div F.nan x = F.nan := by cases x <;> rfl

@[simp] lemma F.div_nan_right (x : F) : F.div x F.nan = F.nan := by cases x <;> rfl

@[simp] lemma F.ltb_fin_fin (a b : ℚ) : F.ltb (F.fin a) (F.fin b) = decide (a < b) := rfl

@[simp] lemma F.habs_fin (a : ℚ) : F.habs (F.fin a) = F.fin |a| := rfl

@[simp] lemma F.habs_nan : F.habs F.nan = F.nan := rfl

@[simp] lemma F.neg_fin (a : ℚ) : F.neg (F.fin a) = F.fin (-a) := rfl

@[simp] lemma F.nmax_nan_left (x : F) : F.nmax F.nan x = x := by cases x <;> rfl

@[simp] lemma F.nmax_nan_right (x : F) : F.nmax x F.nan = x := by cases x <;> rfl

@[simp] lemma F.nmax_fin_fin (a b : ℚ) : F.nmax (F.fin a) (F.fin b) = F.fin (max a b) := rfl

lemma F.div_fin_pinf (a : ℚ) : F.div (F.fin a) F.pinf = F.fin 0 := rfl

lemma F.add_fin_pinf (a : ℚ) : F.add (F.fin a) F.pinf = F.pinf := rfl

lemma F.div_fin_zero_pos (a : ℚ) (ha : 0 < a) : F.div (F.fin a) (F.fin 0) = F.pinf := by
  simp [F.div, ha]

lemma F.div_fin_zero_zero : F.div (F.fin 0) (F.fin 0) = F.nan := by
  simp [F.div]

/-! ### Windowed reductions and shifting (pandas `rolling` / `shift`) -/

/-- The trailing window of size `p` ending at position `t` (inclusive). -/
def windowL {α : Type} (xs : List α) (p t : ℕ) : List α :=
  (xs.take (t + 1)).drop (t + 1 - p)

def sumF (l : List F) : F := l.foldr F.add (F.fin 0)

/-- `Series.rolling(window=p).mean()` : the first `p-1` positions are `nan`;
a window containing `nan` averages to `nan` (default `min_periods = p`). -/
def rollingMeanF (xs : List F) (p : ℕ) : List F :=
  (List.range xs.length).map fun t =>
    if t + 1 < p then F.nan else F.div (sumF (windowL xs p t)) (F.fin p)

/-- `Series.rolling(window=p).std()` with the pandas default `ddof=1`
(sample standard deviation) — this is the variance under the square root;
positions with fewer than `p` observations, and `p ≤ 1` (denominator 0),
give `nan`. -/
def rollingVarF (xs : List ℚ) (p : ℕ) : List F :=
  (List.range xs.length).map fun t =>
    if p ≤ 1 ∨ t + 1 < p then F.nan
    else
      let w := windowL xs p t
      let m := w.sum / (p : ℚ)
      F.fin ((w.map fun x => (x - m) ^ 2).sum / ((p : ℚ) - 1))

/-- `Series.shift(k)` : position `t` holds the original value at `t - k`
when that index exists, otherwise `nan`.  Negative `k` (a forward shift) is
accepted, exactly as in pandas. -/
def shiftF (xs : List ℚ) (k : ℤ) : List F :=
  (List.range xs.length).map fun (t : ℕ) =>
    if 0 ≤ (t : ℤ) - k ∧ ((t : ℤ) - k).toNat < xs.length
    then F.fin (xs.getD ((t : ℤ) - k).toNat 0) else F.nan

/-! ### The `TechnicalIndicators` engine -/

/-- The OHLCV DataFrame held by `TechnicalIndicators` (one list per column). -/
structure TI where
  opn : List ℚ
  high : List ℚ
  low : List ℚ
  close : List ℚ
  volume : List ℚ
deriving DecidableEq, Repr

def requiredCols : List String := ["open", "high", "low", "close", "volume"]

def TI.colF (df : TI) : String → List ℚ
  | "open" => df.opn
  | "high" => df.high
  | "low" => df.low
  | "close" => df.close
  | "volume" => df.volume
  | _ => []

/-- Body of `TechnicalIndicators.sma` after the column check. -/
def TI.smaCore (df : TI) (period : ℕ) (column : String) : List F :=
  rollingMeanF ((df.colF column).map F.fin) period

/-- `TechnicalIndicators.sma` : raises `ValueError` when the column is not in
the DataFrame, otherwise a rolling mean. -/
def TI.sma (df : TI) (period : ℕ) (column : String) : Except String (List F) :=
  if column ∈ requiredCols then .ok (df.smaCore period column)
  else .error "Column not found in data"

/-- The scan underlying `ewm(span=period, adjust=False).mean()` :
`y = a * x + (1 - a) * prev`. -/
def emaScan (a : ℚ) : ℚ → List ℚ → List ℚ
  | _, [] => []
  | prev, x :: rest =>
    let y := a * x + (1 - a) * prev
    y :: emaScan a y rest

/-- `Series.ewm(span=p, adjust=False).mean()` : smoothing `a = 2/(p+1)`,
seeded with the first value. -/
def emaList (xs : List ℚ) (p : ℕ) : List ℚ :=
  match xs with
  | [] => []
  | x :: rest => x :: emaScan (2 / ((p : ℚ) + 1)) x rest

/-- `TechnicalIndicators.ema` (with the column check of the source). -/
def TI.ema (df : TI) (period : ℕ) (column : String) : Except String (List ℚ) :=
  if column ∈ requiredCols then .ok (emaList (df.colF column) period)
  else .error "Column not found in data"

/-- Body of `TechnicalIndicators.roc` :
`((col - col.shift(p)) / col.shift(p)) * 100`. -/
def rocList (xs : List ℚ) (p : ℤ) : List F :=
  List.zipWith (fun a b => F.mul (F.div (F.sub a b) b) (F.fin 100))
    (xs.map F.fin) (shiftF xs p)

def TI.roc (df : TI) (period : ℤ) (column : String) : Except String (List F) :=
  if column ∈ requiredCols then .ok (rocList (df.colF column) period)
  else .error "Column not found in data"

/-- Body of `TechnicalIndicators.momentum` : `col - col.shift(p)`. -/
def momentumList (xs : List ℚ) (p : ℤ) : List F :=
  List.zipWith F.sub (xs.map F.fin) (shiftF xs p)

def TI.momentum (df : TI) (period : ℤ) (column : String) : Except String (List F) :=
  if column ∈ requiredCols then .ok (momentumList (df.colF column) period)
  else .error "Column not found in data"

/-- `close.diff()` : first difference, `nan` at position 0. -/
def diffF (xs : List ℚ) : List F :=
  List.zipWith F.sub (xs.map F.fin) (shiftF xs 1)

/-- `delta.where(delta > 0, 0)` of `TechnicalIndicators.rsi` — note that a
`nan` delta fails the condition and is replaced by 0. -/
def rsiGain (xs : List ℚ) : List F :=
  (diffF xs).map fun d => if F.ltb (F.fin 0) d then d else F.fin 0

/-- `-delta.where(delta < 0, 0)` of `TechnicalIndicators.rsi`. -/
def rsiLoss (xs : List ℚ) : List F :=
  (diffF xs).map fun d => if F.ltb d (F.fin 0) then F.neg d else F.fin 0

/-- `TechnicalIndicators.rsi` : `rs = gain/loss`, `rsi = 100 - 100/(1+rs)`. -/
def rsiList (xs : List ℚ) (p : ℕ) : List F :=
  (List.zipWith F.div (rollingMeanF (rsiGain xs) p) (rollingMeanF (rsiLoss xs) p)).map
    fun rs => F.sub (F.fin 100) (F.div (F.fin 100) (F.add (F.fin 1) rs))

def TI.rsi (df : TI) (period : ℕ) : List F := rsiList df.close period

/-- `TechnicalIndicators.macd` : `(macd_line, signal_line, histogram)`. -/
def macdLists (xs : List ℚ) (fast slow sig : ℕ) : List ℚ × List ℚ × List ℚ :=
  let fastE := emaList xs fast
  let slowE := emaList xs slow
  let macd_line := List.zipWith (fun a b => a - b) fastE slowE
  let signal_line := emaList macd_line sig
  let histogram := List.zipWith (fun a b => a - b) macd_line signal_line
  (macd_line, signal_line, histogram)

/-- `TechnicalIndicators.volume_sma` : `self.sma(period, 'volume')`. -/
def TI.volume_sma (df : TI) (period : ℕ) : List F :=
  df.smaCore period "volume"

/-- `TechnicalIndicators.volume_velocity` : `volume / volume_sma`. -/
def TI.volume_velocity (df : TI) (period : ℕ) : List F :=
  List.zipWith F.div (df.volume.map F.fin) (df.volume_sma period)

/-- The per-step update of `TechnicalIndicators.obv` on a `(close, volume)`
pair. -/
def obvStep (prevClose acc : ℚ) (p : ℚ × ℚ) : ℚ :=
  if prevClose < p.1 then acc + p.2 else if p.1 < prevClose then acc - p.2 else acc

/-- The left-to-right scan of `TechnicalIndicators.obv` over bars `1..n-1`,
carrying the previous close and the running accumulator. -/
def obvScan (prevClose acc : ℚ) : List (ℚ × ℚ) → List ℚ
  | [] => []
  | p :: rest =>
    let acc2 := obvStep prevClose acc p
    acc2 :: obvScan p.1 acc2 rest

/-- `TechnicalIndicators.obv` : seeded with `volume[0]`. -/
def obvList (closes vols : List ℚ) : List ℚ :=
  match closes, vols with
  | c0 :: cr, v0 :: vr => v0 :: obvScan c0 v0 (cr.zip vr)
  | _, _ => []

def TI.obv (df : TI) : List ℚ := obvList df.close df.volume

/-- The per-bar true range of `TechnicalIndicators.atr` :
`concat([high-low, |high-close.shift()|, |low-close.shift()|]).max(axis=1)`
— a `nan`-skipping row maximum. -/
def trueRange (df : TI) : List F :=
  let hl := List.zipWith (fun h l => F.fin (h - l)) df.high df.low
  let hc := List.zipWith (fun h c => F.habs (F.sub (F.fin h) c)) df.high (shiftF df.close 1)
  let lc := List.zipWith (fun l c => F.habs (F.sub (F.fin l) c)) df.low (shiftF df.close 1)
  List.zipWith F.nmax (List.zipWith F.nmax hl hc) lc

def TI.atr (df : TI) (period : ℕ) : List F :=
  rollingMeanF (trueRange df) period

/-! ### Composite Signal Detection -/

/-- The nine boolean columns produced by
`TechnicalIndicators.detect_velocity_signals`.  Each column is a list of
plain booleans: pandas comparisons yield boolean dtype, mapping `nan`
operands to `False`. -/
structure Signals where
  strong_upward_momentum : List Bool
  strong_downward_momentum : List Bool
  overbought : List Bool
  oversold : List Bool
  high_volume : List Bool
  macd_bullish : List Bool
  macd_bearish : List Bool
  price_above_upper_bb : List Bool
  price_below_lower_bb : List Bool
deriving DecidableEq, Repr

/-- `close > upper_band` where `upper = mid + k * sqrt var` : decidable form
used by the embedding.  For finite `mid` and `var ≥ 0` this equals the real
comparison (lemma `aboveUpperB_eq_real` below); when `mid` or `var` is `nan`
the band is `nan` and the pandas comparison is `False`. -/
def aboveUpperB (c : ℚ) (mid v : F) (k : ℚ) : Bool :=
  match mid, v with
  | F.fin m, F.fin vv => decide (0 < c - m ∧ k ^ 2 * vv < (c - m) ^ 2)
  | _, _ => false

/-- `close < lower_band` where `lower = mid - k * sqrt var`, analogously. -/
def belowLowerB (c : ℚ) (mid v : F) (k : ℚ) : Bool :=
  match mid, v with
  | F.fin m, F.fin vv => decide (0 < m - c ∧ k ^ 2 * vv < (m - c) ^ 2)
  | _, _ => false

/-- `TechnicalIndicators.detect_velocity_signals`. -/
def TI.detect_velocity_signals (df : TI) (roc_threshold volume_multiplier : ℚ) : Signals :=
  let roc14 := rocList df.close 14
  let rsi14 := rsiList df.close 14
  let vv := df.volume_velocity 20
  let m3 := macdLists df.close 12 26 9
  let mid := df.smaCore 20 "close"
  let var := rollingVarF df.close 20
  { strong_upward_momentum := roc14.map fun x => F.ltb (F.fin roc_threshold) x
    strong_downward_momentum := roc14.map fun x => F.ltb x (F.fin (-roc_threshold))
    overbought := rsi14.map fun x => F.ltb (F.fin 70) x
    oversold := rsi14.map fun x => F.ltb x (F.fin 30)
    high_volume := vv.map fun x => F.ltb (F.fin volume_multiplier) x
    macd_bullish := List.zipWith (fun ms h => decide (ms.2 < ms.1) && decide ((0 : ℚ) < h))
      (m3.1.zip m3.2.1) m3.2.2
    macd_bearish := List.zipWith (fun ms h => decide (ms.1 < ms.2) && decide (h < (0 : ℚ)))
      (m3.1.zip m3.2.1) m3.2.2
    price_above_upper_bb := List.zipWith (fun cm v => aboveUpperB cm.1 cm.2 v 2)
      (df.close.zip mid) var
    price_below_lower_bb := List.zipWith (fun cm v => belowLowerB cm.1 cm.2 v 2)
      (df.close.zip mid) var }

/-! ### Bollinger bands over the reals

`TechnicalIndicators.bollinger_bands` : `middle = sma(period)`,
`std = close.rolling(period).std()`, `upper = middle + std * k`,
`lower = middle - std * k`.  The square root forces a real-valued model;
warm-up positions (where `middle` or `std` is `nan`) are `none`. -/

noncomputable def bollingerUpperR (df : TI) (p : ℕ) (k : ℚ) : List (Option ℝ) :=
  List.zipWith (fun m v =>
    match m, v with
    | F.fin mq, F.fin vq => some ((mq : ℝ) + (k : ℝ) * Real.sqrt (vq : ℝ))
    | _, _ => none)
    (df.smaCore p "close") (rollingVarF df.close p)

noncomputable def bollingerLowerR (df : TI) (p : ℕ) (k : ℚ) : List (Option ℝ) :=
  List.zipWith (fun m v =>
    match m, v with
    | F.fin mq, F.fin vq => some ((mq : ℝ) - (k : ℝ) * Real.sqrt (vq : ℝ))
    | _, _ => none)
    (df.smaCore p "close") (rollingVarF df.close p)

/-- The trailing mean used in the specification of SMA and Bollinger bands
(spec §4.2): arithmetic mean of the `p` values ending at position `t`. -/
def trailingMean (xs : List ℚ) (p t : ℕ) : ℚ :=
  (∑ i in Finset.range p, xs.getD (t - i) 0) / (p : ℚ)

/-! ### OHLCV data model and series assembler -/

/-- `OHLCVBar` of `src/velodetect/model/ohlcv.py`; the numeric fields are
floats (`F`), so `nan` values are representable. -/
structure OHLCVBar where
  timestamp : ℤ
  opn : F
  high : F
  low : F
  close : F
  volume : F
deriving DecidableEq, Repr

/-- `OHLCVBar.__post_init__` : the four invariant checks, raising
`ValueError` on violation.  Comparisons are float comparisons: each is
`false` whenever an operand is `nan`. -/
def mkBar (timestamp : ℤ) (opn high low close volume : F) : Except String OHLCVBar :=
  if F.ltb high low then .error "High cannot be less than Low"
  else if F.ltb high opn || F.ltb high close then .error "High must be ge Open and Close"
  else if F.ltb opn low || F.ltb close low then .error "Low must be le Open and Close"
  else if F.ltb volume (F.fin 0) then .error "Volume cannot be negative"
  else .ok ⟨timestamp, opn, high, low, close, volume⟩

def isOkB {α : Type} (e : Except String α) : Bool :=
  match e with
  | .ok _ => true
  | .error _ => false

/-- The four constructed-bar invariants (all checks pass). -/
def validBar (b : OHLCVBar) : Prop :=
  F.ltb b.high b.low = false ∧ (F.ltb b.high b.opn || F.ltb b.high b.close) = false ∧
    (F.ltb b.opn b.low || F.ltb b.close b.low) = false ∧ F.ltb b.volume (F.fin 0) = false

/-- One raw exchange candle `(timestamp_ms, open, high, low, close, volume)`. -/
structure Candle where
  ts : ℤ
  opn : ℚ
  high : ℚ
  low : ℚ
  close : ℚ
  volume : ℚ
deriving DecidableEq, Repr

def mkBarOfCandle (cd : Candle) : Except String OHLCVBar :=
  mkBar cd.ts (F.fin cd.opn) (F.fin cd.high) (F.fin cd.low) (F.fin cd.close) (F.fin cd.volume)

/-- The inner loop of `OHLCVFetcher.fetch_ohlcv` over one page: construct a
bar per candle (the first `ValueError` propagates out of the fetch). -/
def mapBars : List Candle → Except String (List OHLCVBar)
  | [] => .ok []
  | cd :: rest =>
    match mkBarOfCandle cd with
    | .error e => .error e
    | .ok b =>
      match mapBars rest with
      | .error e => .error e
      | .ok bs => .ok (b :: bs)

/-- The pagination loop of `OHLCVFetcher.fetch_ohlcv`.  The successive
exchange responses are supplied as `pages`; an exhausted or empty response
ends the loop (`if not ohlcv: break`).  Candles at or beyond `untilTs` are
cut off (`break` at the first such candle), the next request starts at the
last candle of the *full* page plus 1 ms, and a page shorter than the

1000-candle limit ends the loop. -/
def fetchLoop (untilTs : ℤ) : ℤ → List (List Candle) → Except String (List OHLCVBar)
  | _, [] => .ok []
  | cur, page :: rest =>
    if cur < untilTs then
      match page.getLast? with
      | none => .ok []
      | some last =>
        match mapBars (page.takeWhile fun cd => cd.ts < untilTs) with
        | .error e => .error e
        | .ok bars =>
          if page.length < 1000 then .ok bars
          else
            match fetchLoop untilTs (last.ts + 1) rest with
            | .error e => .error e
            | .ok more => .ok (bars ++ more)
    else .ok []

/-! ### Basic lemmas about the float model -/

lemma F.ltb_nan_left (x : F) : F.ltb F.nan x = false := by cases x <;> rfl

lemma F.ltb_nan_right (x : F) : F.ltb x F.nan = false := by cases x <;> rfl

lemma sumF_map_fin (l : List ℚ) : sumF (l.map F.fin) = F.fin l.sum := by
  induction l with
  | nil => rfl
  | cons x xs ih => simp [sumF, List.foldr] at ih ⊢; rw [ih]; rfl

lemma F.div_fin_fin (a b : ℚ) (hb : b ≠ 0) : F.div (F.fin a) (F.fin b) = F.fin (a / b) := by
  simp [F.div, hb]

/-! ### Lemmas about list access -/

lemma get?_range_map {α : Type} (f : ℕ → α) (n t : ℕ) (h : t < n) :
    ((List.range n).map f).get? t = some (f t) := by
  rw [List.get?_map, List.get?_range h]; rfl

lemma length_range_map {α : Type} (f : ℕ → α) (n : ℕ) :
    ((List.range n).map f).length = n := by simp

lemma rollingMeanF_length (xs : List F) (p : ℕ) : (rollingMeanF xs p).length = xs.length := by
  simp [rollingMeanF]

lemma rollingVarF_length (xs : List ℚ) (p : ℕ) : (rollingVarF xs p).length = xs.length := by
  simp [rollingVarF]

lemma shiftF_length (xs : List ℚ) (k : ℤ) : (shiftF xs k).length = xs.length := by
  simp only [shiftF, List.length_map, List.length_range]

lemma rollingMeanF_get? (xs : List F) (p t : ℕ) (ht : t < xs.length) :
    (rollingMeanF xs p).get? t =
      some (if t + 1 < p then F.nan else F.div (sumF (windowL xs p t)) (F.fin p)) :=
  get?_range_map _ _ _ ht

lemma rollingVarF_get? (xs : List ℚ) (p t : ℕ) (ht : t < xs.length) :
    (rollingVarF xs p).get? t =
      some (if p ≤ 1 ∨ t + 1 < p then F.nan
        else F.fin (((windowL xs p t).map
            fun x => (x - (windowL xs p t).sum / (p : ℚ)) ^ 2).sum / ((p : ℚ) - 1))) :=
  get?_range_map _ _ _ ht

lemma windowL_map {α β : Type} (f : α → β) (xs : List α) (p t : ℕ) :
    windowL (xs.map f) p t = (windowL xs p t).map f := by
  simp [windowL, List.map_take, List.map_drop]

/-! ### The trailing window as an explicit range of indices -/

lemma windowL_eq (xs : List ℚ) (p t : ℕ) (h1 : p ≤ t + 1) (h2 : t < xs.length) :
    windowL xs p t = (List.range p).map fun j => xs.getD (t + 1 - p + j) 0 := by
  apply List.ext
  intro n
  by_cases hn : n < p
  · have hidx : t + 1 - p + n < t + 1 := by omega
    have hidx2 : t + 1 - p + n < xs.length := by omega
    rw [windowL, List.get?_drop, List.get?_take hidx, get?_range_map _ _ _ hn,
      List.getD_eq_get _ _ hidx2, List.get?_eq_get hidx2]
  · have hlen : (windowL xs p t).length = p := by
      simp only [windowL, List.length_drop, List.length_take]
      omega
    have h1 : (windowL xs p t).get? n = none := by
      rw [List.get?_eq_none]; omega
    have h2 : (((List.range p).map fun j => xs.getD (t + 1 - p + j) 0).get? n) = none := by
      rw [List.get?_eq_none]; simp; omega
    rw [h1, h2]

lemma list_range_map_sum (f : ℕ → ℚ) (n : ℕ) :
    ((List.range n).map f).sum = ∑ i in Finset.range n, f i := by
  induction n with
  | zero => simp
  | succ m ih => rw [List.range_succ, Finset.sum_range_succ]; simp [ih]

lemma windowL_map_sum (g : ℚ → ℚ) (xs : List ℚ) (p t : ℕ) (h1 : p ≤ t + 1)
    (h2 : t < xs.length) :
    ((windowL xs p t).map g).sum = ∑ i in Finset.range p, g (xs.getD (t - i) 0) := by
  rw [windowL_eq xs p t h1 h2, List.map_map, list_range_map_sum]
  rw [← Finset.sum_range_reflect (fun i => g (xs.getD (t - i) 0)) p]
  apply Finset.sum_congr rfl
  intro j hj
  rw [Finset.mem_range] at hj
  simp only [Function.comp]
  congr 2
  omega

lemma windowL_sum (xs : List ℚ) (p t : ℕ) (h1 : p ≤ t + 1) (h2 : t < xs.length) :
    (windowL xs p t).sum = ∑ i in Finset.range p, xs.getD (t - i) 0 := by
  have := windowL_map_sum id xs p t h1 h2
  simpa using this

lemma get?_zipWith_some {α β γ : Type} (f : α → β → γ) (l1 : List α) (l2 : List β)
    (n : ℕ) (a : α) (b : β) (h1 : l1.get? n = some a) (h2 : l2.get? n = some b) :
    (List.zipWith f l1 l2).get? n = some (f a b) := by
  rw [List.get?_zipWith', h1, h2]; rfl

lemma shiftF_get? (xs : List ℚ) (k : ℤ) (t : ℕ) (ht : t < xs.length) :
    (shiftF xs k).get? t =
      some (if 0 ≤ (t : ℤ) - k ∧ ((t : ℤ) - k).toNat < xs.length
        then F.fin (xs.getD ((t : ℤ) - k).toNat 0) else F.nan) :=
  get?_range_map _ _ _ ht

/-! ### Lemmas about the EMA and OBV scans -/

lemma emaScan_length (a : ℚ) : ∀ (l : List ℚ) (prev : ℚ), (emaScan a prev l).length = l.length
  | [], _ => rfl
  | _ :: rest, _ => by simp [emaScan, emaScan_length a rest]

lemma emaScan_get? (a : ℚ) : ∀ (l : List ℚ) (prev : ℚ) (t : ℕ), t < l.length →
    (emaScan a prev l).get? t =
      some (a * l.getD t 0 + (1 - a) * ((prev :: emaScan a prev l).getD t 0))
  | [], _, t, ht => by simp at ht
  | x :: rest, prev, 0, _ => by simp [emaScan]
  | x :: rest, prev, t + 1, ht => by
    have ht2 : t < rest.length := by simpa using ht
    have ih := emaScan_get? a rest (a * x + (1 - a) * prev) t ht2
    simpa [emaScan] using ih

lemma obvScan_length : ∀ (ps : List (ℚ × ℚ)) (pc acc : ℚ), (obvScan pc acc ps).length = ps.length
  | [], _, _ => rfl
  | p :: rest, _, _ => by simp [obvScan, obvScan_length rest]

lemma obvScan_get? : ∀ (ps : List (ℚ × ℚ)) (pc acc : ℚ) (t : ℕ), t < ps.length →
    (obvScan pc acc ps).get? t =
      some (obvStep ((pc :: ps.map Prod.fst).getD t 0)
        ((acc :: obvScan pc acc ps).getD t 0) (ps.getD t (0, 0)))
  | [], _, _, t, ht => by simp at ht
  | p :: rest, pc, acc, 0, _ => by simp [obvScan]
  | p :: rest, pc, acc, t + 1, ht => by
    have ht2 : t < rest.length := by simpa using ht
    have ih := obvScan_get? rest p.1 (obvStep pc acc p) t ht2
    simpa [obvScan] using ih

lemma get?_eq_some_getD {α : Type} (l : List α) (d : α) (t : ℕ) (h : t < l.length) :
    l.get? t = some (l.getD t d) := by
  rw [List.get?_eq_get h, List.getD_eq_get]

/-- C6 : for every non-empty series and period `p ≥ 1`, `ema` satisfies the
recurrence `EMA[t] = a*value[t] + (1-a)*EMA[t-1]` with `a = 2/(p+1)` and
`EMA[0] = value[0]`, and every position (including position 0) carries a
defined value — no warm-up blanking. -/
theorem ema_spec (xs : List ℚ) (p : ℕ) (hx : xs ≠ []) (hp : 1 ≤ p) :
    (emaList xs p).length = xs.length ∧
    (emaList xs p).get? 0 = some (xs.getD 0 0) ∧
    (∀ t, t < xs.length → ∃ q : ℚ, (emaList xs p).get? t = some q) ∧
    (∀ t, t + 1 < xs.length →
      (emaList xs p).get? (t + 1) =
        some ((2 / ((p : ℚ) + 1)) * xs.getD (t + 1) 0 +
          (1 - 2 / ((p : ℚ) + 1)) * (emaList xs p).getD t 0)) := by
  match xs with
  | [] => exact absurd rfl hx
  | x :: rest =>
    have hlen : (emaList (x :: rest) p).length = (x :: rest).length := by
      simp [emaList, emaScan_length]
    refine ⟨hlen, by simp [emaList], ?_, ?_⟩
    · intro t ht
      have ht2 : t < (emaList (x :: rest) p).length := by rw [hlen]; exact ht
      exact ⟨_, List.get?_eq_get ht2⟩
    · intro t ht
      have ht2 : t < rest.length := by simpa using ht
      have ih := emaScan_get? (2 / ((p : ℚ) + 1)) rest x t ht2
      simpa [emaList, List.getD_cons_succ] using ih

/-- C6 witness. -/
theorem ema_spec_witness :
    [(1 : ℚ), 2] ≠ [] ∧ 1 ≤ 2 ∧
      (emaList [(1 : ℚ), 2] 2).get? 0 = some ([(1 : ℚ), 2].getD 0 0) :=
  ⟨by decide, by decide, (ema_spec [(1 : ℚ), 2] 2 (by decide) (by decide)).2.1⟩

/-- C7 : for every non-empty series, `obv` (a single left-to-right scan with
one running accumulator) satisfies `OBV[0] = volume[0]` and, for `t ≥ 1`,
`OBV[t] = OBV[t-1] + volume[t]` when `close[t] > close[t-1]`,
`OBV[t] = OBV[t-1] - volume[t]` when `close[t] < close[t-1]`, and
`OBV[t] = OBV[t-1]` otherwise. -/
theorem obv_spec (closes vols : List ℚ) (hne : closes ≠ [])
    (hlen : closes.length = vols.length) :
    (obvList closes vols).length = closes.length ∧
    (obvList closes vols).get? 0 = some (vols.getD 0 0) ∧
    ∀ t, t + 1 < closes.length →
      (obvList closes vols).get? (t + 1) =
        some (if closes.getD t 0 < closes.getD (t + 1) 0
          then (obvList closes vols).getD t 0 + vols.getD (t + 1) 0
          else if closes.getD (t + 1) 0 < closes.getD t 0
          then (obvList closes vols).getD t 0 - vols.getD (t + 1) 0
          else (obvList closes vols).getD t 0) := by
  match closes, vols with
  | [], _ => exact absurd rfl hne
  | c0 :: cr, [] => simp at hlen
  | c0 :: cr, v0 :: vr =>
    have hcv : cr.length = vr.length := by simpa using hlen
    have hzip : (cr.zip vr).length = cr.length := by
      rw [List.length_zip]; omega
    refine ⟨by simp [obvList, obvScan_length, hzip], by simp [obvList], ?_⟩
    intro t ht
    have ht2 : t < cr.length := by simpa using ht
    have htz : t < (cr.zip vr).length := by rw [hzip]; exact ht2
    have ih := obvScan_get? (cr.zip vr) c0 v0 t htz
    have hfst : (cr.zip vr).map Prod.fst = cr := List.map_fst_zip cr vr (le_of_eq hcv)
    have hpair : (cr.zip vr).getD t (0, 0) = (cr.getD t 0, vr.getD t 0) := by
      have h1 : (cr.zip vr).get? t = some ((cr.zip vr).getD t (0, 0)) :=
        get?_eq_some_getD _ _ _ htz
      rw [List.get?_zip_eq_some] at h1
      obtain ⟨ha, hb⟩ := h1
      have ha2 : cr.get? t = some (cr.getD t 0) := get?_eq_some_getD _ _ _ ht2
      have hb2 : vr.get? t = some (vr.getD t 0) := get?_eq_some_getD _ _ _ (by omega)
      rw [ha2] at ha
      rw [hb2] at hb
      rw [Prod.ext_iff]
      exact ⟨(Option.some_inj.mp ha).symm, (Option.some_inj.mp hb).symm⟩
    rw [hfst, hpair] at ih
    have hL : (obvList (c0 :: cr) (v0 :: vr)).get? (t + 1) =
        (obvScan c0 v0 (cr.zip vr)).get? t := by simp [obvList]
    rw [hL, ih]
    simp only [obvList, obvStep, List.getD_cons_succ]

/-- C7 witness. -/
theorem obv_spec_witness :
    [(1 : ℚ), 2] ≠ [] ∧ [(1 : ℚ), 2].length = [(3 : ℚ), 4].length ∧
      (obvList [(1 : ℚ), 2] [(3 : ℚ), 4]).get? 0 = some ([(3 : ℚ), 4].getD 0 0) :=
  ⟨by decide, by decide, (obv_spec [(1 : ℚ), 2] [(3 : ℚ), 4] (by decide) (by decide)).2.1⟩

/-- C5 : for every series, recognized column and period `p ≥ 1`, `sma`
returns a sequence of the series length whose first `p-1` positions are the
`nan` sentinel and whose position `t ≥ p-1` is the arithmetic mean of the
trailing `p` column values; in particular `SMA(3)` on closes `[1,2,3,4,5]`
is `[nan, nan, 2, 3, 4]`. -/
theorem sma_spec :
    (∀ (df : TI) (c : String) (p : ℕ), 1 ≤ p → c ∈ requiredCols →
      ∃ l, TI.sma df p c = .ok l ∧ l.length = (df.colF c).length ∧
        (∀ t, t + 1 < p → t < (df.colF c).length → l.get? t = some F.nan) ∧
        (∀ t, p ≤ t + 1 → t < (df.colF c).length →
          l.get? t =
            some (F.fin ((∑ i in Finset.range p, (df.colF c).getD (t - i) 0) / (p : ℚ))))) ∧
    TI.sma ⟨[1, 2, 3, 4, 5], [1, 2, 3, 4, 5], [1, 2, 3, 4, 5], [1, 2, 3, 4, 5],
        [1, 2, 3, 4, 5]⟩ 3 "close" =
      .ok [F.nan, F.nan, F.fin 2, F.fin 3, F.fin 4] := by
  constructor
  · intro df c p hp hc
    refine ⟨df.smaCore p c, by simp [TI.sma, hc], by simp [TI.smaCore, rollingMeanF_length], ?_, ?_⟩
    · intro t h1 h2
      have ht : t < ((df.colF c).map F.fin).length := by simpa using h2
      rw [TI.smaCore, rollingMeanF_get? _ _ _ ht, if_pos h1]
    · intro t h1 h2
      have ht : t < ((df.colF c).map F.fin).length := by simpa using h2
      rw [TI.smaCore, rollingMeanF_get? _ _ _ ht, if_neg (by omega)]
      rw [windowL_map, sumF_map_fin,
        F.div_fin_fin _ _ (Nat.cast_ne_zero.mpr (by omega)),
        windowL_sum _ _ _ h1 h2]
  · simp only [TI.sma, TI.smaCore, requiredCols, TI.colF, List.mem_cons, List.mem_singleton,
      List.not_mem_nil, or_false, if_pos, if_true, reduceIte, rollingMeanF, windowL, sumF,
      List.length_cons, List.length_nil, List.length_map, List.range_succ, List.range_zero,
      List.map_nil, List.map_cons, List.map_append, List.nil_append, List.cons_append,
      List.take_succ_cons, List.take_zero, List.drop_succ_cons, List.drop_zero,
      List.foldr_cons, List.foldr_nil, F.add_fin_fin, F.div]
    norm_num [Except.ok.injEq]

/-- C5 witness. -/
theorem sma_spec_witness :
    ∃ l, TI.sma ⟨[(1 : ℚ), 2, 3, 4, 5], [1, 2, 3, 4, 5], [1, 2, 3, 4, 5], [1, 2, 3, 4, 5],
      [1, 2, 3, 4, 5]⟩ 3 "close" = .ok l ∧ l.get? 4 = some (F.fin 4) := by
  obtain ⟨l, hok, hlen, hnan, hval⟩ := sma_spec.1
    ⟨[(1 : ℚ), 2, 3, 4, 5], [1, 2, 3, 4, 5], [1, 2, 3, 4, 5], [1, 2, 3, 4, 5], [1, 2, 3, 4, 5]⟩
    "close" 3 (by decide) (by decide)
  refine ⟨l, hok, ?_⟩
  rw [hval 4 (by decide) (by norm_num [TI.colF])]
  norm_num [Finset.sum_range_succ, TI.colF]

/-- C9 : for every non-empty series, the true range used by ATR at bar 0 is
`high[0] - low[0]` : the two previous-close terms are `nan` at bar 0 and are
skipped by the row maximum, not treated as zero and not propagated. -/
theorem atr_bar0_true_range (opn volume : List ℚ) (h0 l0 c0 : ℚ) (hs ls cs : List ℚ) :
    (trueRange ⟨opn, h0 :: hs, l0 :: ls, c0 :: cs, volume⟩).get? 0 = some (F.fin (h0 - l0)) := by
  have hshift : (shiftF (c0 :: cs) 1).get? 0 = some F.nan := by
    rw [shiftF_get? _ _ 0 (by simp)]
    norm_num
  have hhl : (List.zipWith (fun h l => F.fin (h - l)) (h0 :: hs) (l0 :: ls)).get? 0 =
      some (F.fin (h0 - l0)) := rfl
  have hself : (h0 :: hs).get? 0 = some h0 := rfl
  have hlow : (l0 :: ls).get? 0 = some l0 := rfl
  have hhc := get?_zipWith_some (fun h c => F.habs (F.sub (F.fin h) c)) (h0 :: hs)
    (shiftF (c0 :: cs) 1) 0 h0 F.nan hself hshift
  have hlc := get?_zipWith_some (fun l c => F.habs (F.sub (F.fin l) c)) (l0 :: ls)
    (shiftF (c0 :: cs) 1) 0 l0 F.nan hlow hshift
  simp only [F.sub_nan_right, F.habs_nan] at hhc hlc
  have hz1 := get?_zipWith_some F.nmax _ _ 0 _ _ hhl hhc
  have hz2 := get?_zipWith_some F.nmax _ _ 0 _ _ hz1 hlc
  simpa [trueRange] using hz2

/-- C10 : `nan` never trips `OHLCVBar.__post_init__` : every invariant
comparison evaluates to false on a `nan` operand, so starting from any bar
that validates, replacing any single numeric field (or all five) by `nan`
still validates — a NaN bar can enter a series unrejected. -/
theorem bar_nan_passes_validation (ts : ℤ) (o h l c v : F)
    (hok : isOkB (mkBar ts o h l c v) = true) :
    isOkB (mkBar ts F.nan h l c v) = true ∧
    isOkB (mkBar ts o F.nan l c v) = true ∧
    isOkB (mkBar ts o h F.nan c v) = true ∧
    isOkB (mkBar ts o h l F.nan v) = true ∧
    isOkB (mkBar ts o h l c F.nan) = true ∧
    isOkB (mkBar ts F.nan F.nan F.nan F.nan F.nan) = true ∧
    (∀ x : F, F.ltb F.nan x = false ∧ F.ltb x F.nan = false) := by
  unfold mkBar at hok
  split_ifs at hok with h1 h2 h3 h4
  · simp [isOkB] at hok
  · simp [isOkB] at hok
  · simp [isOkB] at hok
  · simp [isOkB] at hok
  · rw [Bool.or_eq_true, not_or, Bool.not_eq_true, Bool.not_eq_true] at h2 h3
    obtain ⟨h2a, h2b⟩ := h2
    obtain ⟨h3a, h3b⟩ := h3
    rw [Bool.not_eq_true] at h1 h4
    refine ⟨?_, ?_, ?_, ?_, ?_, ?_, fun x => ⟨F.ltb_nan_left x, F.ltb_nan_right x⟩⟩ <;>
      simp [mkBar, isOkB, F.ltb_nan_left, F.ltb_nan_right, h1, h2a, h2b, h3a, h3b, h4]

/-- C10 witness. -/
theorem bar_nan_passes_validation_witness :
    isOkB (mkBar 0 (F.fin 1) (F.fin 2) (F.fin 0) (F.fin 1) (F.fin 3)) = true ∧
      isOkB (mkBar 0 F.nan (F.fin 2) (F.fin 0) (F.fin 1) (F.fin 3)) = true := by
  have hok : isOkB (mkBar 0 (F.fin 1) (F.fin 2) (F.fin 0) (F.fin 1) (F.fin 3)) = true := by
    norm_num [mkBar, isOkB, F.ltb]
  exact ⟨hok, (bar_nan_passes_validation 0 (F.fin 1) (F.fin 2) (F.fin 0) (F.fin 1)
    (F.fin 3) hok).1⟩

/-- C2 counterexample : `roc` with a negative period does not fail with a
parameter-validation error — it computes against a forward shift and returns
a numeric value: on closes `[1, 2]`, `roc(-1)` returns `[-50, nan]`. -/
theorem roc_negative_period_cex :
    TI.roc ⟨[1, 2], [1, 2], [1, 2], [1, 2], [1, 2]⟩ (-1) "close" =
      .ok [F.fin (-50), F.nan] := by
  norm_num [TI.roc, requiredCols, TI.colF, rocList, shiftF, List.range_succ, F.div, F.sub,
    F.mul]

/-- C2 amended : `sma` and `ema` only validate the column argument (the
library call validates the window), while `roc` and `momentum` perform no
period validation at all: for every integer period — negative included —
they return a full-length sequence and never raise, provided the column is
recognized. -/
theorem roc_momentum_any_period_ok (df : TI) (p : ℤ) (c : String) (hc : c ∈ requiredCols) :
    (∃ l, TI.roc df p c = .ok l ∧ l.length = (df.colF c).length) ∧
    (∃ l, TI.momentum df p c = .ok l ∧ l.length = (df.colF c).length) := by
  refine ⟨⟨rocList (df.colF c) p, by simp [TI.roc, hc], ?_⟩,
    ⟨momentumList (df.colF c) p, by simp [TI.momentum, hc], ?_⟩⟩
  · simp [rocList, List.length_zipWith, shiftF_length]
  · simp [momentumList, List.length_zipWith, shiftF_length]

/-- C2 witness. -/
theorem roc_momentum_any_period_ok_witness :
    "close" ∈ requiredCols ∧
      (∃ l, TI.roc ⟨[1, 2], [1, 2], [1, 2], [1, 2], [1, 2]⟩ (-1) "close" = .ok l ∧
        l.length = (TI.colF ⟨[1, 2], [1, 2], [1, 2], [1, 2], [1, 2]⟩ "close").length) :=
  ⟨by decide, (roc_momentum_any_period_ok ⟨[1, 2], [1, 2], [1, 2], [1, 2], [1, 2]⟩ (-1)
    "close" (by decide)).1⟩

/-- C3 counterexample : on the flat series `[5, 5, 5]` with period 2 the
trailing mean of losses at position 1 is 0, yet RSI there is `nan`, not 100:
both means are 0, so `rs = 0/0 = nan` and the NaN propagates. -/
theorem rsi_flat_series_nan_cex :
    (rollingMeanF (rsiLoss [(5 : ℚ), 5, 5]) 2).get? 1 = some (F.fin 0) ∧
      (rsiList [(5 : ℚ), 5, 5] 2).get? 1 = some F.nan := by
  constructor <;>
    norm_num [rsiList, rsiLoss, rsiGain, diffF, shiftF, rollingMeanF, windowL, sumF,
      List.range_succ, F.div, F.sub, F.add, F.ltb]

/-- C3 amended : at a position where the trailing mean of losses is 0, RSI
is 100 when the trailing mean of gains is positive (`rs = +inf`, RSI
saturates), but `nan` when the mean gain is also 0 (`rs = 0/0`, as on a flat
series); the computation is total either way — division by zero never
raises. -/
theorem rsi_mean_loss_zero (xs : List ℚ) (p t : ℕ) (g : ℚ)
    (hl : (rollingMeanF (rsiLoss xs) p).get? t = some (F.fin 0))
    (hg : (rollingMeanF (rsiGain xs) p).get? t = some (F.fin g)) :
    (0 < g → (rsiList xs p).get? t = some (F.fin 100)) ∧
    (g = 0 → (rsiList xs p).get? t = some F.nan) := by
  have hz := get?_zipWith_some F.div _ _ t _ _ hg hl
  constructor
  · intro hgpos
    rw [F.div_fin_zero_pos g hgpos] at hz
    simp only [rsiList, List.get?_map, hz, Option.map_some]
    norm_num [F.add_fin_pinf, F.div_fin_pinf]
  · intro hg0
    subst hg0
    rw [F.div_fin_zero_zero] at hz
    simp only [rsiList, List.get?_map, hz, Option.map_some]
    simp

/-- C3 witness. -/
theorem rsi_mean_loss_zero_witness :
    (rollingMeanF (rsiLoss [(1 : ℚ), 2, 3]) 2).get? 1 = some (F.fin 0) ∧
      (rollingMeanF (rsiGain [(1 : ℚ), 2, 3]) 2).get? 1 = some (F.fin (1 / 2)) ∧
      (rsiList [(1 : ℚ), 2, 3] 2).get? 1 = some (F.fin 100) := by
  have hl : (rollingMeanF (rsiLoss [(1 : ℚ), 2, 3]) 2).get? 1 = some (F.fin 0) := by
    norm_num [rsiLoss, diffF, shiftF, rollingMeanF, windowL, sumF, List.range_succ,
      F.div, F.sub, F.add, F.ltb]
  have hg : (rollingMeanF (rsiGain [(1 : ℚ), 2, 3]) 2).get? 1 = some (F.fin (1 / 2)) := by
    norm_num [rsiGain, diffF, shiftF, rollingMeanF, windowL, sumF, List.range_succ,
      F.div, F.sub, F.add, F.ltb]
  exact ⟨hl, hg, (rsi_mean_loss_zero [(1 : ℚ), 2, 3] 2 1 (1 / 2) hl hg).1 (by norm_num)⟩

/-! ### Flag-level equations for `detect_velocity_signals` -/

lemma detect_up_eq (df : TI) (a b : ℚ) :
    (df.detect_velocity_signals a b).strong_upward_momentum =
      (rocList df.close 14).map fun x => F.ltb (F.fin a) x := rfl

lemma detect_down_eq (df : TI) (a b : ℚ) :
    (df.detect_velocity_signals a b).strong_downward_momentum =
      (rocList df.close 14).map fun x => F.ltb x (F.fin (-a)) := rfl

lemma detect_overbought_eq (df : TI) (a b : ℚ) :
    (df.detect_velocity_signals a b).overbought =
      (rsiList df.close 14).map fun x => F.ltb (F.fin 70) x := rfl

lemma detect_oversold_eq (df : TI) (a b : ℚ) :
    (df.detect_velocity_signals a b).oversold =
      (rsiList df.close 14).map fun x => F.ltb x (F.fin 30) := rfl

lemma detect_highvol_eq (df : TI) (a b : ℚ) :
    (df.detect_velocity_signals a b).high_volume =
      (df.volume_velocity 20).map fun x => F.ltb (F.fin b) x := rfl

lemma detect_above_eq (df : TI) (a b : ℚ) :
    (df.detect_velocity_signals a b).price_above_upper_bb =
      List.zipWith (fun cm v => aboveUpperB cm.1 cm.2 v 2)
        (df.close.zip (df.smaCore 20 "close")) (rollingVarF df.close 20) := rfl

lemma detect_below_eq (df : TI) (a b : ℚ) :
    (df.detect_velocity_signals a b).price_below_lower_bb =
      List.zipWith (fun cm v => belowLowerB cm.1 cm.2 v 2)
        (df.close.zip (df.smaCore 20 "close")) (rollingVarF df.close 20) := rfl

lemma map_gt_nan_false (l : List F) (q : ℚ) (t : ℕ) (h : l.get? t = some F.nan) :
    (l.map fun x => F.ltb (F.fin q) x).get? t = some false := by
  rw [List.get?_map, h]
  simp [F.ltb_nan_right]

lemma map_lt_nan_false (l : List F) (q : ℚ) (t : ℕ) (h : l.get? t = some F.nan) :
    (l.map fun x => F.ltb x (F.fin q)).get? t = some false := by
  rw [List.get?_map, h]
  simp [F.ltb_nan_left]

lemma aboveUpperB_nan (c : ℚ) (m : F) (k : ℚ) : aboveUpperB c m F.nan k = false := by
  cases m <;> rfl

lemma belowLowerB_nan (c : ℚ) (m : F) (k : ℚ) : belowLowerB c m F.nan k = false := by
  cases m <;> rfl

/-- C1 counterexample : on a one-bar series, `ROC(14)` is undefined (`nan`)
at position 0, yet the `strong_upward_momentum` flag there is the boolean
`false` — a plain boolean, not an undefined sentinel: the pandas comparison
coerces `nan` to `False`. -/
theorem detect_signals_warmup_flag_false_cex :
    (rocList [(1 : ℚ)] 14).get? 0 = some F.nan ∧
      (TI.detect_velocity_signals ⟨[1], [1], [1], [1], [1]⟩ 2
        (3 / 2)).strong_upward_momentum.get? 0 = some false := by
  have h1 : (rocList [(1 : ℚ)] 14).get? 0 = some F.nan := by
    norm_num [rocList, shiftF, List.range_succ, F.sub, F.div, F.mul]
  exact ⟨h1, by rw [detect_up_eq]; exact map_gt_nan_false _ 2 0 h1⟩

/-- C1 amended : at positions where an underlying indicator is undefined
(`nan`), the corresponding signal flags of Composite Signal Detection are
the boolean `false`, not an undefined sentinel — the comparisons coerce
`nan` to `False` (and the two MACD flags have no undefined positions at all,
since EMA has no warm-up blanking). -/
theorem detect_signals_nan_flags_false (df : TI) (rocT volM : ℚ) (t : ℕ) :
    ((rocList df.close 14).get? t = some F.nan →
      (df.detect_velocity_signals rocT volM).strong_upward_momentum.get? t = some false ∧
      (df.detect_velocity_signals rocT volM).strong_downward_momentum.get? t = some false) ∧
    ((rsiList df.close 14).get? t = some F.nan →
      (df.detect_velocity_signals rocT volM).overbought.get? t = some false ∧
      (df.detect_velocity_signals rocT volM).oversold.get? t = some false) ∧
    ((df.volume_velocity 20).get? t = some F.nan →
      (df.detect_velocity_signals rocT volM).high_volume.get? t = some false) ∧
    ((rollingVarF df.close 20).get? t = some F.nan →
      (df.detect_velocity_signals rocT volM).price_above_upper_bb.get? t = some false ∧
      (df.detect_velocity_signals rocT volM).price_below_lower_bb.get? t = some false) := by
  refine ⟨fun h => ⟨?_, ?_⟩, fun h => ⟨?_, ?_⟩, fun h => ?_, fun h => ⟨?_, ?_⟩⟩
  · rw [detect_up_eq]; exact map_gt_nan_false _ _ _ h
  · rw [detect_down_eq]; exact map_lt_nan_false _ _ _ h
  · rw [detect_overbought_eq]; exact map_gt_nan_false _ _ _ h
  · rw [detect_oversold_eq]; exact map_lt_nan_false _ _ _ h
  · rw [detect_highvol_eq]; exact map_gt_nan_false _ _ _ h
  all_goals {
    have htv : t < (rollingVarF df.close 20).length := by
      rcases List.get?_eq_some.mp h with ⟨hlt, _⟩
      exact hlt
    have htc : t < df.close.length := by rwa [rollingVarF_length] at htv
    have hcc : df.colF "close" = df.close := rfl
    have htz : t < (df.close.zip (df.smaCore 20 "close")).length := by
      rw [List.length_zip, TI.smaCore, rollingMeanF_length, List.length_map, hcc]
      omega
    have hcm : (df.close.zip (df.smaCore 20 "close")).get? t =
        some ((df.close.zip (df.smaCore 20 "close")).getD t (0, F.nan)) :=
      get?_eq_some_getD _ _ _ htz
    first
      | (rw [detect_above_eq]
         rw [get?_zipWith_some _ _ _ t _ _ hcm h]
         rw [aboveUpperB_nan])
      | (rw [detect_below_eq]
         rw [get?_zipWith_some _ _ _ t _ _ hcm h]
         rw [belowLowerB_nan]) }

/-- C1 witness : a one-bar series, where ROC/RSI/volume-velocity/Bollinger
are all undefined at position 0, and all seven comparison flags are `false`. -/
theorem detect_signals_nan_flags_false_witness :
    (rocList [(1 : ℚ)] 14).get? 0 = some F.nan ∧
      (rsiList [(1 : ℚ)] 14).get? 0 = some F.nan ∧
      (TI.volume_velocity ⟨[1], [1], [1], [1], [1]⟩ 20).get? 0 = some F.nan ∧
      (rollingVarF [(1 : ℚ)] 20).get? 0 = some F.nan ∧
      (TI.detect_velocity_signals ⟨[1], [1], [1], [1], [1]⟩ 2
        (3 / 2)).strong_upward_momentum.get? 0 = some false ∧
      (TI.detect_velocity_signals ⟨[1], [1], [1], [1], [1]⟩ 2
        (3 / 2)).strong_downward_momentum.get? 0 = some false ∧
      (TI.detect_velocity_signals ⟨[1], [1], [1], [1], [1]⟩ 2
        (3 / 2)).overbought.get? 0 = some false ∧
      (TI.detect_velocity_signals ⟨[1], [1], [1], [1], [1]⟩ 2
        (3 / 2)).oversold.get? 0 = some false ∧
      (TI.detect_velocity_signals ⟨[1], [1], [1], [1], [1]⟩ 2
        (3 / 2)).high_volume.get? 0 = some false ∧
      (TI.detect_velocity_signals ⟨[1], [1], [1], [1], [1]⟩ 2
        (3 / 2)).price_above_upper_bb.get? 0 = some false ∧
      (TI.detect_velocity_signals ⟨[1], [1], [1], [1], [1]⟩ 2
        (3 / 2)).price_below_lower_bb.get? 0 = some false := by
  have hroc : (rocList [(1 : ℚ)] 14).get? 0 = some F.nan := by
    norm_num [rocList, shiftF, List.range_succ, F.sub, F.div, F.mul]
  have hrsi : (rsiList [(1 : ℚ)] 14).get? 0 = some F.nan := by
    norm_num [rsiList, rsiGain, rsiLoss, diffF, shiftF, rollingMeanF, List.range_succ,
      F.sub, F.div, F.add, F.ltb]
  have hvv : (TI.volume_velocity ⟨[1], [1], [1], [1], [1]⟩ 20).get? 0 = some F.nan := by
    norm_num [TI.volume_velocity, TI.volume_sma, TI.smaCore, TI.colF, rollingMeanF,
      List.range_succ, F.div]
  have hvar : (rollingVarF [(1 : ℚ)] 20).get? 0 = some F.nan := by
    norm_num [rollingVarF, List.range_succ]
  have h := detect_signals_nan_flags_false ⟨[1], [1], [1], [1], [1]⟩ 2 (3 / 2) 0
  exact ⟨hroc, hrsi, hvv, hvar, (h.1 hroc).1, (h.1 hroc).2, (h.2.1 hrsi).1, (h.2.1 hrsi).2,
    h.2.2.1 hvv, (h.2.2.2 hvar).1, (h.2.2.2 hvar).2⟩

/-! ### Series assembler lemmas -/

lemma mkBarOfCandle_ok (cd : Candle) (b : OHLCVBar) (h : mkBarOfCandle cd = .ok b) :
    b.timestamp = cd.ts ∧ validBar b := by
  unfold mkBarOfCandle mkBar at h
  split_ifs at h with h1 h2 h3 h4
  rw [Except.ok.injEq] at h
  subst h
  rw [Bool.or_eq_true, not_or, Bool.not_eq_true, Bool.not_eq_true] at h2 h3
  rw [Bool.not_eq_true] at h1 h4
  exact ⟨rfl, h1, by simp [h2.1, h2.2], by simp [h3.1, h3.2], h4⟩

lemma mapBars_ok : ∀ (l : List Candle) (bs : List OHLCVBar), mapBars l = .ok bs →
    bs.map OHLCVBar.timestamp = l.map Candle.ts ∧ ∀ b ∈ bs, validBar b
  | [], bs, h => by
    rw [mapBars, Except.ok.injEq] at h
    subst h
    simp
  | cd :: rest, bs, h => by
    rw [mapBars] at h
    cases heq : mkBarOfCandle cd with
    | error e => rw [heq] at h; exact absurd h (by simp)
    | ok b =>
      rw [heq] at h
      cases heq2 : mapBars rest with
      | error e => rw [heq2] at h; exact absurd h (by simp)
      | ok bs2 =>
        rw [heq2, Except.ok.injEq] at h
        subst h
        obtain ⟨hts, hval⟩ := mkBarOfCandle_ok cd b heq
        obtain ⟨ih1, ih2⟩ := mapBars_ok rest bs2 heq2
        refine ⟨by simp [hts, ih1], ?_⟩
        intro x hx
        rcases List.mem_cons.mp hx with rfl | hx2
        · exact hval
        · exact ih2 x hx2

lemma fetchLoop_props : ∀ (pages : List (List Candle)) (untilTs cur : ℤ)
    (bars : List OHLCVBar), fetchLoop untilTs cur pages = .ok bars →
    (bars.map OHLCVBar.timestamp).Sublist ((pages.join).map Candle.ts) ∧
      ∀ b ∈ bars, validBar b
  | [], u, cur, bars, h => by
    rw [fetchLoop, Except.ok.injEq] at h
    subst h
    simp
  | page :: rest, u, cur, bars, h => by
    rw [fetchLoop] at h
    by_cases hc : cur < u
    · rw [if_pos hc] at h
      cases hl : page.getLast? with
      | none =>
        simp only [hl, Except.ok.injEq] at h
        subst h
        simp
      | some last =>
        simp only [hl] at h
        cases hm : mapBars (page.takeWhile fun cd => cd.ts < u) with
        | error e =>
          simp only [hm] at h
          exact absurd h (by simp)
        | ok bs =>
          simp only [hm] at h
          obtain ⟨hts, hval⟩ := mapBars_ok _ bs hm
          have hsub0 : (bs.map OHLCVBar.timestamp).Sublist (page.map Candle.ts) := by
            rw [hts]
            exact ((List.takeWhile_prefix _).sublist).map Candle.ts
          by_cases hlen : page.length < 1000
          · rw [if_pos hlen, Except.ok.injEq] at h
            subst h
            refine ⟨?_, hval⟩
            simp only [List.join, List.flatten_cons, List.map_append]
            exact hsub0.trans (List.sublist_append_left _ _)
          · rw [if_neg hlen] at h
            cases hrec : fetchLoop u (last.ts + 1) rest with
            | error e =>
              simp only [hrec] at h
              exact absurd h (by simp)
            | ok more =>
              simp only [hrec, Except.ok.injEq] at h
              subst h
              obtain ⟨ih1, ih2⟩ := fetchLoop_props rest u (last.ts + 1) more hrec
              refine ⟨?_, ?_⟩
              · simp only [List.join, List.flatten_cons, List.map_append]
                exact List.Sublist.append hsub0
                  (by simpa only [List.join] using ih1)
              · intro x hx
                rcases List.mem_append.mp hx with hx1 | hx2
                · exact hval x hx1
                · exact ih2 x hx2
    · rw [if_neg hc, Except.ok.injEq] at h
      subst h
      simp

/-- C4 counterexample : a page holding two candles with the same timestamp
(0 ms, both valid) is assembled into a series with two bars at timestamp 0 —
the assembler never de-duplicates, so the output violates "no duplicate
timestamps". -/
theorem fetch_duplicate_timestamps_cex :
    (fetchLoop 10 0 [[⟨0, 1, 1, 1, 1, 1⟩, ⟨0, 1, 1, 1, 1, 1⟩]]).map
        (List.map OHLCVBar.timestamp) = .ok [0, 0] ∧ ¬ ([(0 : ℤ), 0].Nodup) :=
  ⟨rfl, by decide⟩

/-- C4 amended : for raw pages whose candles are globally non-decreasing by
timestamp, every successful fetch yields bars that all satisfy the
constructed-bar invariants, in non-decreasing timestamp order — but
duplicate timestamps are preserved, not removed. -/
theorem fetch_sorted_validated (untilTs cur : ℤ) (pages : List (List Candle))
    (bars : List OHLCVBar)
    (hs : ((pages.join).map Candle.ts).Sorted (· ≤ ·))
    (h : fetchLoop untilTs cur pages = .ok bars) :
    (bars.map OHLCVBar.timestamp).Sorted (· ≤ ·) ∧ ∀ b ∈ bars, validBar b := by
  obtain ⟨hsub, hval⟩ := fetchLoop_props pages untilTs cur bars h
  exact ⟨List.Pairwise.sublist hsub hs, hval⟩

/-- C4 witness. -/
theorem fetch_sorted_validated_witness :
    ((([[⟨0, 1, 1, 1, 1, 1⟩, ⟨1, 1, 1, 1, 1, 1⟩]] : List (List Candle)).join).map
      Candle.ts).Sorted (· ≤ ·) ∧
      fetchLoop 10 0 [[⟨0, 1, 1, 1, 1, 1⟩, ⟨1, 1, 1, 1, 1, 1⟩]] =
        .ok [⟨0, F.fin 1, F.fin 1, F.fin 1, F.fin 1, F.fin 1⟩,
          ⟨1, F.fin 1, F.fin 1, F.fin 1, F.fin 1, F.fin 1⟩] ∧
      (([⟨0, F.fin 1, F.fin 1, F.fin 1, F.fin 1, F.fin 1⟩,
          ⟨1, F.fin 1, F.fin 1, F.fin 1, F.fin 1, F.fin 1⟩] : List OHLCVBar).map
        OHLCVBar.timestamp).Sorted (· ≤ ·) ∧
      ∀ b ∈ ([⟨0, F.fin 1, F.fin 1, F.fin 1, F.fin 1, F.fin 1⟩,
          ⟨1, F.fin 1, F.fin 1, F.fin 1, F.fin 1, F.fin 1⟩] : List OHLCVBar), validBar b := by
  have hs : ((([[⟨0, 1, 1, 1, 1, 1⟩, ⟨1, 1, 1, 1, 1, 1⟩]] : List (List Candle)).join).map
      Candle.ts).Sorted (· ≤ ·) := by
    simp [List.sorted_cons]
  have h : fetchLoop 10 0 [[⟨0, 1, 1, 1, 1, 1⟩, ⟨1, 1, 1, 1, 1, 1⟩]] =
      .ok [⟨0, F.fin 1, F.fin 1, F.fin 1, F.fin 1, F.fin 1⟩,
        ⟨1, F.fin 1, F.fin 1, F.fin 1, F.fin 1, F.fin 1⟩] := rfl
  obtain ⟨h1, h2⟩ := fetch_sorted_validated 10 0 _ _ hs h
  exact ⟨hs, h, h1, h2⟩

/-! ### Bollinger band lemmas -/

lemma smaCore_get?_defined (xs : List ℚ) (p t : ℕ) (hp : 1 ≤ p) (h1 : p ≤ t + 1)
    (h2 : t < xs.length) :
    (rollingMeanF (xs.map F.fin) p).get? t =
      some (F.fin ((∑ i in Finset.range p, xs.getD (t - i) 0) / (p : ℚ))) := by
  have ht : t < (xs.map F.fin).length := by simpa using h2
  rw [rollingMeanF_get? _ _ _ ht, if_neg (by omega), windowL_map, sumF_map_fin,
    F.div_fin_fin _ _ (Nat.cast_ne_zero.mpr (by omega)), windowL_sum _ _ _ h1 h2]

lemma rollingVarF_get?_defined (xs : List ℚ) (p t : ℕ) (hp : 2 ≤ p) (h1 : p ≤ t + 1)
    (h2 : t < xs.length) :
    (rollingVarF xs p).get? t = some (F.fin
      ((∑ i in Finset.range p, (xs.getD (t - i) 0 - trailingMean xs p t) ^ 2) /
        ((p : ℚ) - 1))) := by
  rw [rollingVarF_get? _ _ _ h2, if_neg (by omega)]
  have hm : (windowL xs p t).sum / (p : ℚ) = trailingMean xs p t := by
    rw [windowL_sum _ _ _ h1 h2]; rfl
  rw [hm, windowL_map_sum (fun x => (x - trailingMean xs p t) ^ 2) _ _ _ h1 h2]

lemma sampleVar_nonneg (xs : List ℚ) (p t : ℕ) (hp : 2 ≤ p) :
    0 ≤ (∑ i in Finset.range p, (xs.getD (t - i) 0 - trailingMean xs p t) ^ 2) /
      ((p : ℚ) - 1) := by
  apply div_nonneg
  · exact Finset.sum_nonneg fun i _ => sq_nonneg _
  · have h2 : (2 : ℚ) ≤ (p : ℚ) := by exact_mod_cast hp
    linarith

/-- C8 : for `p ≥ 2` at every defined position, the Bollinger standard
deviation is the sample standard deviation of the trailing `p` closes
(`s ≥ 0` with `(p-1)·s² = Σ (xᵢ - mean)²` — denominator `p-1`, not `p`),
and `upper = middle + k·s`, `lower = middle - k·s` with
`middle = SMA(p)` of close. -/
theorem bollinger_spec (df : TI) (p t : ℕ) (k : ℚ) (hp : 2 ≤ p) (h1 : p ≤ t + 1)
    (h2 : t < df.close.length) :
    ∃ s : ℝ, 0 ≤ s ∧
      ((p : ℝ) - 1) * s ^ 2 =
        (∑ i in Finset.range p,
          ((df.close.getD (t - i) 0 : ℝ) - (trailingMean df.close p t : ℝ)) ^ 2) ∧
      (bollingerUpperR df p k).get? t =
        some (some ((trailingMean df.close p t : ℝ) + (k : ℝ) * s)) ∧
      (bollingerLowerR df p k).get? t =
        some (some ((trailingMean df.close p t : ℝ) - (k : ℝ) * s)) ∧
      (df.smaCore p "close").get? t = some (F.fin (trailingMean df.close p t)) ∧
      TI.sma df p "close" = .ok (df.smaCore p "close") := by
  have hvar := rollingVarF_get?_defined df.close p t hp h1 h2
  have hmid := smaCore_get?_defined df.close p t (by omega) h1 h2
  have hmid2 : (df.smaCore p "close").get? t = some (F.fin (trailingMean df.close p t)) :=
    hmid
  have hvq0 : (0 : ℚ) ≤ (∑ i in Finset.range p,
      (df.close.getD (t - i) 0 - trailingMean df.close p t) ^ 2) / ((p : ℚ) - 1) :=
    sampleVar_nonneg df.close p t hp
  have hvqR0 : (0 : ℝ) ≤ (((∑ i in Finset.range p,
      (df.close.getD (t - i) 0 - trailingMean df.close p t) ^ 2) / ((p : ℚ) - 1) : ℚ) : ℝ) := by
    exact_mod_cast hvq0
  refine ⟨Real.sqrt (((∑ i in Finset.range p,
      (df.close.getD (t - i) 0 - trailingMean df.close p t) ^ 2) / ((p : ℚ) - 1) : ℚ) : ℝ),
    Real.sqrt_nonneg _, ?_, ?_, ?_, hmid2, by simp [TI.sma, requiredCols]⟩
  · rw [Real.sq_sqrt hvqR0]
    have hp1 : ((p : ℝ) - 1) ≠ 0 := by
      have : (2 : ℝ) ≤ (p : ℝ) := by exact_mod_cast hp
      linarith
    push_cast
    field_simp
  · rw [bollingerUpperR, get?_zipWith_some _ _ _ t _ _ hmid2 hvar]
  · rw [bollingerLowerR, get?_zipWith_some _ _ _ t _ _ hmid2 hvar]
    

/-- C8 witness : closes `[0,1,2]`, `p = 3`, `k = 2` at position 2 :
middle is 1, sample variance is 1, so the upper band is `1 + 2·1 = 3`. -/
theorem bollinger_spec_witness :
    (bollingerUpperR ⟨[0, 1, 2], [0, 1, 2], [0, 1, 2], [0, 1, 2], [0, 1, 2]⟩ 3 2).get? 2 =
      some (some 3) := by
  obtain ⟨s, hs0, hs2, hup, hlo, hmid, hsma⟩ :=
    bollinger_spec ⟨[0, 1, 2], [0, 1, 2], [0, 1, 2], [0, 1, 2], [0, 1, 2]⟩ 3 2 2
      (by norm_num) (by norm_num) (by simp)
  have htm : trailingMean [(0 : ℚ), 1, 2] 3 2 = 1 := by
    norm_num [trailingMean, Finset.sum_range_succ]
  have hs2b : (((3 : ℕ) : ℝ) - 1) * s ^ 2 =
      ∑ i in Finset.range 3,
        (([(0 : ℚ), 1, 2].getD (2 - i) 0 : ℝ) -
          (trailingMean [(0 : ℚ), 1, 2] 3 2 : ℝ)) ^ 2 := hs2
  rw [htm] at hs2b
  have hsum : (∑ i in Finset.range 3,
      (([(0 : ℚ), 1, 2].getD (2 - i) 0 : ℝ) - ((1 : ℚ) : ℝ)) ^ 2) = 2 := by
    norm_num [Finset.sum_range_succ]
  rw [hsum] at hs2b
  have hs1 : s = 1 := by
    norm_num at hs2b
    rcases hs2b with h | h
    · exact h
    · exfalso
      rw [h] at hs0
      norm_num at hs0
  have hup2 : (bollingerUpperR ⟨[0, 1, 2], [0, 1, 2], [0, 1, 2], [0, 1, 2], [0, 1, 2]⟩ 3
      2).get? 2 =
      some (some ((trailingMean [(0 : ℚ), 1, 2] 3 2 : ℝ) + ((2 : ℚ) : ℝ) * s)) := hup
  rw [hup2, htm, hs1]
  norm_num

/-! ### The decidable band comparisons agree with the real-valued bands -/

lemma exceeds_iff_real (d v k : ℚ) (hv : 0 ≤ v) (hk : 0 ≤ k) :
    ((0 : ℚ) < d ∧ k ^ 2 * v < d ^ 2) ↔ (k : ℝ) * Real.sqrt (v : ℝ) < (d : ℝ) := by
  have hvR : (0 : ℝ) ≤ ((v : ℚ) : ℝ) := by exact_mod_cast hv
  have hkR : (0 : ℝ) ≤ ((k : ℚ) : ℝ) := by exact_mod_cast hk
  have hkv : ((k : ℚ) : ℝ) * Real.sqrt (v : ℝ) = Real.sqrt (((k : ℚ) : ℝ) ^ 2 * (v : ℝ)) := by
    rw [Real.sqrt_mul (by positivity) ((v : ℚ) : ℝ), Real.sqrt_sq hkR]
  constructor
  · rintro ⟨hd, hsq⟩
    have hdR : (0 : ℝ) < ((d : ℚ) : ℝ) := by exact_mod_cast hd
    have hsqR : ((k : ℚ) : ℝ) ^ 2 * ((v : ℚ) : ℝ) < ((d : ℚ) : ℝ) ^ 2 := by exact_mod_cast hsq
    calc ((k : ℚ) : ℝ) * Real.sqrt (v : ℝ) = Real.sqrt (((k : ℚ) : ℝ) ^ 2 * (v : ℝ)) := hkv
      _ < Real.sqrt (((d : ℚ) : ℝ) ^ 2) := Real.sqrt_lt_sqrt (by positivity) hsqR
      _ = ((d : ℚ) : ℝ) := Real.sqrt_sq hdR.le
  · intro hlt
    have h0 : (0 : ℝ) ≤ ((k : ℚ) : ℝ) * Real.sqrt (v : ℝ) := by positivity
    have hdR : (0 : ℝ) < ((d : ℚ) : ℝ) := lt_of_le_of_lt h0 hlt
    refine ⟨by exact_mod_cast hdR, ?_⟩
    have hsq : (((k : ℚ) : ℝ) * Real.sqrt (v : ℝ)) ^ 2 < ((d : ℚ) : ℝ) ^ 2 :=
      pow_lt_pow_left hlt h0 (by norm_num)
    have heq : (((k : ℚ) : ℝ) * Real.sqrt (v : ℝ)) ^ 2 = ((k : ℚ) : ℝ) ^ 2 * ((v : ℚ) : ℝ) := by
      rw [mul_pow, Real.sq_sqrt hvR]
    rw [heq] at hsq
    exact_mod_cast hsq

/-- The boolean used for `close > upper_band` in the embedded
`detect_velocity_signals` coincides with the real-number comparison against
`middle + k·sqrt(var)` whenever the band is defined. -/
lemma aboveUpperB_eq_real (c m v k : ℚ) (hv : 0 ≤ v) (hk : 0 ≤ k) :
    aboveUpperB c (F.fin m) (F.fin v) k =
      decide (((m : ℚ) : ℝ) + ((k : ℚ) : ℝ) * Real.sqrt (v : ℝ) < ((c : ℚ) : ℝ)) := by
  show decide ((0 : ℚ) < c - m ∧ k ^ 2 * v < (c - m) ^ 2) = _
  rw [decide_eq_decide, exceeds_iff_real (c - m) v k hv hk]
  push_cast
  constructor <;> intro h <;> linarith

/-- The boolean used for `close < lower_band`, analogously. -/
lemma belowLowerB_eq_real (c m v k : ℚ) (hv : 0 ≤ v) (hk : 0 ≤ k) :
    belowLowerB c (F.fin m) (F.fin v) k =
      decide (((c : ℚ) : ℝ) < ((m : ℚ) : ℝ) - ((k : ℚ) : ℝ) * Real.sqrt (v : ℝ)) := by
  show decide ((0 : ℚ) < m - c ∧ k ^ 2 * v < (m - c) ^ 2) = _
  rw [decide_eq_decide, exceeds_iff_real (m - c) v k hv hk]
  push_cast
  constructor <;> intro h <;> linarith
